import Mathlib

set_option maxHeartbeats 1000000

/-!
Shallow embedding of the JSON-repair scanner and the fix-apply/verify
protocol of `src/agents/writer.py` (class `WriterAgent`), together with
theorems checking the claims of the specification about them.
-/

/-- One step of the character scan inside `analyze_and_fix`
(writer.py lines 134-162): given the flags `in_string` and `escape`
and the current character, return the emitted characters and the updated
flags, following the branch order of the code (escape first, then backslash,
then quote, then in-string newline, then default). -/
def scanStep (in_string escape : Bool) (c : Char) : List Char × Bool × Bool :=
  if escape then ([c], in_string, false)
  else if c = '\\' then ([c], in_string, true)
  else if c = '"' then ([c], !in_string, false)
  else if in_string ∧ c = '\n' then (['\\', 'n'], in_string, false)
  else ([c], in_string, false)

/-- The scan loop of writer.py lines 129-163: runs `scanStep` over the
character list, returning the accumulated output and the final flags. -/
def scanList : Bool → Bool → List Char → List Char × Bool × Bool
  | in_string, escape, [] => ([], in_string, escape)
  | in_string, escape, c :: cs =>
    ((scanStep in_string escape c).1 ++
       (scanList (scanStep in_string escape c).2.1 (scanStep in_string escape c).2.2 cs).1,
     (scanList (scanStep in_string escape c).2.1 (scanStep in_string escape c).2.2 cs).2)

/-- The function `sanitize`: the newline-escaping repair pass of `analyze_and_fix`
(writer.py lines 127-164), starting with `in_string = False` and
`escape = False` and keeping only the emitted text. -/
def sanitize (raw : String) : String := ⟨(scanList false false raw.data).1⟩

/-- One rule application of the transducer described in the spec (§4.1,
algorithm step 2), written on a state pair `(inString, escapePending)`
in the rule order of the spec. -/
def specRule (st : Bool × Bool) (c : Char) : List Char × Bool × Bool :=
  if st.2 then ([c], st.1, false)
  else if c = '\\' then ([c], st.1, true)
  else if c = '"' then ([c], !st.1, false)
  else if c = '\n' ∧ st.1 then (['\\', 'n'], st.1, false)
  else ([c], st.1, false)

/-- The transducer of the spec (§4.1), written as a left fold that accumulates
the output while threading the two booleans. -/
def specSanitize (raw : String) : String :=
  ⟨(raw.data.foldl (fun acc c =>
      (acc.1 ++ (specRule (acc.2.1, acc.2.2) c).1,
       (specRule (acc.2.1, acc.2.2) c).2.1, (specRule (acc.2.1, acc.2.2) c).2.2))
      ([], false, false)).1⟩

theorem specRule_eq_scanStep (a b : Bool) (c : Char) :
    specRule (a, b) c = scanStep a b c := by
  simp only [specRule, scanStep]
  by_cases hb : b <;> by_cases h1 : c = '\\' <;> by_cases h2 : c = '"' <;>
    by_cases h3 : c = '\n' <;> by_cases ha : a <;>
    simp [hb, h1, h2, h3, ha]

theorem specFold_eq (l : List Char) : ∀ out : List Char, ∀ inS esc : Bool,
    l.foldl (fun acc c =>
      (acc.1 ++ (specRule (acc.2.1, acc.2.2) c).1,
       (specRule (acc.2.1, acc.2.2) c).2.1, (specRule (acc.2.1, acc.2.2) c).2.2))
      (out, inS, esc)
    = (out ++ (scanList inS esc l).1, (scanList inS esc l).2) := by
  induction l with
  | nil => intro out inS esc; simp [scanList]
  | cons c cs ih =>
    intro out inS esc
    simp only [List.foldl_cons]
    rw [ih]
    simp [scanList, specRule_eq_scanStep, List.append_assoc]

/-- C4: the sanitizer scan of the code produces exactly the output of the
transducer of the spec on every input string. -/
theorem sanitize_eq_specSanitize (raw : String) : sanitize raw = specSanitize raw := by
  simp [sanitize, specSanitize, specFold_eq]

theorem scanList_output_no_newline (l : List Char) : ∀ inS esc : Bool,
    (∀ c ∈ l, c ≠ '\n') → (scanList inS esc l).1 = l := by
  induction l with
  | nil => intro inS esc _; simp [scanList]
  | cons c cs ih =>
    intro inS esc h
    have hc : c ≠ '\n' := h c (by simp)
    have hcs : ∀ x ∈ cs, x ≠ '\n' := fun x hx => h x (by simp [hx])
    simp only [scanList, scanStep]
    by_cases he : esc
    · simp [he, ih _ _ hcs]
    · by_cases hb : c = '\\' <;> by_cases hq : c = '"' <;>
        simp [he, hb, hq, hc, ih _ _ hcs]

/-- C10: on any input containing no line-feed character at all — valid
JSON or not — the sanitizer scan is the identity. -/
theorem sanitize_id_of_no_newline (s : String) (h : ∀ c ∈ s.data, c ≠ '\n') :
    sanitize s = s := by
  simp only [sanitize, scanList_output_no_newline s.data false false h]

/-- Witness for C10 at a concrete newline-free input (an unterminated
string with a dangling backslash, not valid JSON). -/
theorem sanitize_id_of_no_newline_witness :
    sanitize "\x7b\"a\": \"b\\" = "\x7b\"a\": \"b\\" :=
  sanitize_id_of_no_newline "\x7b\"a\": \"b\\" (by decide)

/-- C7: starting at any scan state with no pending escape, an escaped
quote or escaped backslash is emitted unchanged, the escape consumes
exactly the one following character, and the scan of the remaining
characters continues from the same `in_string` flag (so the quote does
not toggle it). -/
theorem scan_escape_pair (inS : Bool) (c : Char) (rest : List Char)
    (h : c = '"' ∨ c = '\\') :
    scanList inS false ('\\' :: c :: rest)
      = ('\\' :: c :: (scanList inS false rest).1, (scanList inS false rest).2) := by
  cases h <;> simp [scanList, scanStep]

/-- Witness for C7: an escaped quote followed by more characters inside a
string value passes through the scan uncorrupted. -/
theorem scan_escape_pair_witness :
    scanList true false ('\\' :: '"' :: 'x' :: 'y' :: [])
      = ('\\' :: '"' :: (scanList true false ('x' :: 'y' :: [])).1,
         (scanList true false ('x' :: 'y' :: [])).2) :=
  scan_escape_pair true '"' ('x' :: 'y' :: []) (Or.inl rfl)

theorem scanList_append (xs ys : List Char) : ∀ inS esc : Bool,
    scanList inS esc (xs ++ ys)
      = ((scanList inS esc xs).1 ++
           (scanList (scanList inS esc xs).2.1 (scanList inS esc xs).2.2 ys).1,
         (scanList (scanList inS esc xs).2.1 (scanList inS esc xs).2.2 ys).2) := by
  induction xs with
  | nil => intro inS esc; simp [scanList]
  | cons c cs ih => intro inS esc; simp [scanList, ih, List.append_assoc]

/-- A piece of a double-quoted JSON string literal: either a single
unescaped character or a two-character escape sequence. -/
inductive StrItem where
  | chr (c : Char)
  | esc (c : Char)

/-- Well-formedness of a string-literal piece in valid JSON with no raw
newline inside string values: an unescaped character is not a quote, a
backslash or a newline; the character after a backslash is not a raw
newline. -/
def strItemWF : StrItem → Bool
  | .chr c => (c != '"') && (c != '\\') && (c != '\n')
  | .esc c => c != '\n'

/-- A segment of a JSON text: either a character outside every string
literal, or a complete double-quoted string literal. -/
inductive JsonSeg where
  | raw (c : Char)
  | str (items : List StrItem)

/-- Well-formedness of a segment: valid JSON has no quote and no
backslash outside string literals (tokens there are numbers, literals,
punctuation and whitespace), and string pieces are well-formed. -/
def jsonSegWF : JsonSeg → Bool
  | .raw c => (c != '"') && (c != '\\')
  | .str items => items.all strItemWF

def renderItem : StrItem → List Char
  | .chr c => [c]
  | .esc c => ['\\', c]

def renderSeg : JsonSeg → List Char
  | .raw c => [c]
  | .str items => '"' :: ((items.map renderItem).flatten ++ ['"'])

/-- The JSON text denoted by a list of segments. Every string that is
valid JSON and has no literal newline inside its string values is
`renderSegs` of a well-formed segment list. -/
def renderSegs (segs : List JsonSeg) : List Char := (segs.map renderSeg).flatten

theorem scan_item (i : StrItem) (h : strItemWF i = true) :
    scanList true false (renderItem i) = (renderItem i, true, false) := by
  cases i with
  | chr c =>
    simp only [strItemWF, Bool.and_eq_true, bne_iff_ne] at h
    simp [renderItem, scanList, scanStep, h.1.1, h.1.2, h.2]
  | esc c => simp [renderItem, scanList, scanStep]

theorem scan_items (items : List StrItem) (h : items.all strItemWF = true) :
    scanList true false ((items.map renderItem)).flatten
      = ((items.map renderItem).flatten, true, false) := by
  induction items with
  | nil => simp [scanList]
  | cons i is ih =>
    simp only [List.all_cons, Bool.and_eq_true] at h
    simp [scanList_append, scan_item i h.1, ih h.2]

theorem scan_seg (s : JsonSeg) (h : jsonSegWF s = true) :
    scanList false false (renderSeg s) = (renderSeg s, false, false) := by
  cases s with
  | raw c =>
    simp only [jsonSegWF, Bool.and_eq_true, bne_iff_ne] at h
    simp [renderSeg, scanList, scanStep, h.1, h.2]
  | str items =>
    simp only [jsonSegWF] at h
    simp [renderSeg, scanList, scanStep, scanList_append, scan_items items h]

/-- C6: the sanitizer scan is the identity on every JSON text assembled
from well-formed segments; since every valid JSON string with no literal
newline inside its string values decomposes this way, `sanitize j = j`
for all such `j`. -/
theorem sanitize_id_on_valid_json (segs : List JsonSeg)
    (h : segs.all jsonSegWF = true) :
    sanitize ⟨renderSegs segs⟩ = ⟨renderSegs segs⟩ := by
  suffices hs : scanList false false (renderSegs segs) = (renderSegs segs, false, false) by
    simp [sanitize, hs]
  induction segs with
  | nil => simp [renderSegs, scanList]
  | cons s ss ih =>
    simp only [List.all_cons, Bool.and_eq_true] at h
    have hr : renderSegs (s :: ss) = renderSeg s ++ renderSegs ss := by simp [renderSegs]
    rw [hr, scanList_append]
    simp [scan_seg s h.1, ih h.2]

/-- A concrete segment decomposition of the valid JSON text
`["a", "\"b", 12]`. -/
def jsonSegsExample : List JsonSeg :=
  [.raw '[', .str [.chr 'a'], .raw ',', .raw ' ',
   .str [.esc '"', .chr 'b'], .raw ',', .raw ' ',
   .raw '1', .raw '2', .raw ']']

/-- Witness for C6 at the concrete valid JSON text `["a", "\"b", 12]`. -/
theorem sanitize_id_on_valid_json_witness :
    jsonSegsExample.all jsonSegWF = true ∧
      sanitize ⟨renderSegs jsonSegsExample⟩ = ⟨renderSegs jsonSegsExample⟩ :=
  ⟨by decide, sanitize_id_on_valid_json jsonSegsExample (by decide)⟩

/-- First index of `c`, like Python `str.find` restricted to a single
character (writer.py line 123 calls `find("[")` only under the guard
`"[" in response_text`, so only the found case is ever used). -/
def pyFind (c : Char) : List Char → Option Nat
  | [] => none
  | x :: xs => if x = c then some 0 else (pyFind c xs).map (· + 1)

/-- Last index of `c`, like Python `str.rfind` (writer.py line 124). -/
def pyRFind (c : Char) (l : List Char) : Option Nat :=
  (pyFind c l.reverse).map (fun i => l.length - 1 - i)

/-- The bracket trim of `analyze_and_fix` (writer.py lines 121-125): when
the text contains both a square-bracket open and close, slice from the
first open bracket through the last close bracket; otherwise leave the
text alone. Python slicing with start past stop yields the empty string,
as `List.take` with truncated subtraction does here. -/
def trimBrackets (t : String) : String :=
  match pyFind '[' t.data, pyRFind ']' t.data with
  | some s, some e => ⟨(t.data.drop s).take (e + 1 - s)⟩
  | _, _ => t

/-- The substring test `needle in hay` of Python. -/
def hasSubstr (needle : List Char) : List Char → Bool
  | [] => needle.isEmpty
  | c :: cs => needle.isPrefixOf (c :: cs) || hasSubstr needle cs

/-- The code-fence stripping of `analyze_and_fix` (writer.py lines
113-119): when the text contains a fenced block, keep the piece between
the first fence markers (after the json-tagged fence when present) and
strip surrounding whitespace. The `IndexError` guard at line 118 can
never fire: that branch runs only when the fence marker occurs, so the
split always has a second piece. -/
def stripFences (t : String) : String :=
  if hasSubstr "```json".data t.data then
    ((((t.splitOn "```json").getD 1 "").splitOn "```").getD 0 "").trim
  else if hasSubstr "```".data t.data then
    ((((t.splitOn "```").getD 1 "").splitOn "```").getD 0 "").trim
  else t

/-- The whole response preprocessing that runs before the sanitizer scan
(writer.py lines 111-125): fence stripping, then the bracket trim. -/
def preprocess (t : String) : String := trimBrackets (stripFences t)

/-- Modelled from the trimming words of the spec, corrected to what the code
considers: the substring between the first open square bracket and the
last close square bracket, written with `dropWhile` from each end;
curly braces take no part. -/
def specTrim (t : String) : String :=
  if '[' ∈ t.data ∧ ']' ∈ t.data then
    ⟨((t.data.dropWhile (· != '[')).reverse.dropWhile (· != ']')).reverse⟩
  else t

theorem pyFind_eq_none (c : Char) (l : List Char) : pyFind c l = none ↔ c ∉ l := by
  induction l with
  | nil => simp [pyFind]
  | cons x xs ih =>
    by_cases hx : x = c
    · simp [pyFind, hx]
    · simp only [pyFind, if_neg hx, Option.map_eq_none', ih, List.mem_cons]
      constructor
      · intro h hc; rcases hc with hc | hc
        · exact hx hc.symm
        · exact h hc
      · intro h hc; exact h (Or.inr hc)

theorem pyFind_lt_length (c : Char) (l : List Char) :
    ∀ i, pyFind c l = some i → i < l.length := by
  induction l with
  | nil => intro i h; simp [pyFind] at h
  | cons x xs ih =>
    intro i h
    by_cases hx : x = c
    · simp only [pyFind, if_pos hx, Option.some.injEq] at h
      simp [← h]
    · simp only [pyFind, if_neg hx, Option.map_eq_some'] at h
      obtain ⟨j, hj, rfl⟩ := h
      have := ih j hj
      simp only [List.length_cons]
      omega

theorem drop_pyFind (c : Char) (l : List Char) : ∀ i, pyFind c l = some i →
    l.drop i = l.dropWhile (· != c) := by
  induction l with
  | nil => intro i h; simp [pyFind] at h
  | cons x xs ih =>
    intro i h
    by_cases hx : x = c
    · simp only [pyFind, if_pos hx, Option.some.injEq] at h
      subst hx
      simp [← h, List.dropWhile_cons]
    · simp only [pyFind, if_neg hx, Option.map_eq_some'] at h
      obtain ⟨j, hj, rfl⟩ := h
      have hbne : (x != c) = true := by simp [bne, hx]
      simp only [List.dropWhile_cons, hbne, if_pos rfl, List.drop_succ_cons]
      exact ih j hj

theorem pyFind_take (c : Char) (l : List Char) : ∀ i n, pyFind c l = some i → i < n →
    pyFind c (l.take n) = some i := by
  induction l with
  | nil => intro i n h _; simp [pyFind] at h
  | cons x xs ih =>
    intro i n h hn
    by_cases hx : x = c
    · simp only [pyFind, if_pos hx, Option.some.injEq] at h
      cases n with
      | zero => omega
      | succ m => simp [List.take_succ_cons, pyFind, hx, h]
    · simp only [pyFind, if_neg hx, Option.map_eq_some'] at h
      obtain ⟨j, hj, rfl⟩ := h
      cases n with
      | zero => omega
      | succ m =>
        simp only [List.take_succ_cons, pyFind, if_neg hx, Option.map_eq_some']
        exact ⟨j, ih j m hj (by omega), rfl⟩

theorem pyFind_not_mem_take (c : Char) (l : List Char) : ∀ i, pyFind c l = some i →
    c ∉ l.take i := by
  induction l with
  | nil => intro i h; simp [pyFind] at h
  | cons x xs ih =>
    intro i h
    by_cases hx : x = c
    · simp only [pyFind, if_pos hx, Option.some.injEq] at h
      simp [← h]
    · simp only [pyFind, if_neg hx, Option.map_eq_some'] at h
      obtain ⟨j, hj, rfl⟩ := h
      simp only [List.take_succ_cons, List.mem_cons, not_or]
      exact ⟨fun hcx => hx hcx.symm, ih j hj⟩

theorem dropWhile_ne_eq_nil (c : Char) (l : List Char) (h : c ∉ l) :
    l.dropWhile (· != c) = [] := by
  induction l with
  | nil => simp
  | cons x xs ih =>
    simp only [List.mem_cons, not_or] at h
    have hbne : (x != c) = true := by
      simp [bne]
      intro hxc; exact h.1 hxc.symm
    simp only [List.dropWhile_cons, hbne, if_pos rfl]
    exact ih h.2

theorem slice_eq_dropWhile (l : List Char) (s i : Nat)
    (hs : pyFind '[' l = some s) (hi : pyFind ']' l.reverse = some i) :
    (l.drop s).take (l.length - 1 - i + 1 - s)
      = ((l.dropWhile (· != '[')).reverse.dropWhile (· != ']')).reverse := by
  rw [← drop_pyFind '[' l s hs]
  have hsl : s < l.length := pyFind_lt_length _ _ s hs
  have hil : i < l.length := by
    have := pyFind_lt_length _ _ i hi
    simpa using this
  have hrev : (l.drop s).reverse = l.reverse.take (l.length - s) :=
    List.reverse_drop
  by_cases hcase : i < l.length - s
  · have hfind : pyFind ']' ((l.drop s).reverse) = some i := by
      rw [hrev]
      exact pyFind_take _ _ i (l.length - s) hi hcase
    rw [← drop_pyFind ']' ((l.drop s).reverse) i hfind]
    have hdd : ((l.drop s).reverse.drop i).reverse
        = (l.drop s).take ((l.drop s).length - i) := by
      rw [List.reverse_drop]
      simp
    rw [hdd]
    congr 1
    simp only [List.length_drop]
    omega
  · have h0 : l.length - 1 - i + 1 - s = 0 := by omega
    rw [h0]
    have hno : ']' ∉ (l.drop s).reverse := by
      rw [hrev]
      intro hmem
      have hsub : l.reverse.take (l.length - s)
          = (l.reverse.take i).take (l.length - s) := by
        rw [List.take_take]
        congr 1
        omega
      rw [hsub] at hmem
      exact pyFind_not_mem_take ']' l.reverse i hi (List.mem_of_mem_take hmem)
    rw [dropWhile_ne_eq_nil ']' _ hno]
    simp

theorem trimBrackets_eq_specTrim (t : String) : trimBrackets t = specTrim t := by
  unfold trimBrackets specTrim
  cases hf : pyFind '[' t.data with
  | none =>
    have h1 : '[' ∉ t.data := (pyFind_eq_none _ _).mp hf
    simp [pyRFind, h1]
  | some s =>
    cases hr : pyFind ']' t.data.reverse with
    | none =>
      have h2 : ']' ∉ t.data := by
        have := (pyFind_eq_none _ _).mp hr
        simpa using this
      simp [pyRFind, hr, h2]
    | some i =>
      have h1 : '[' ∈ t.data := by
        by_contra hc
        rw [← pyFind_eq_none] at hc
        simp [hc] at hf
      have h2 : ']' ∈ t.data := by
        by_contra hc
        have hc2 : ']' ∉ t.data.reverse := by simpa using hc
        rw [← pyFind_eq_none] at hc2
        simp [hc2] at hr
      simp only [pyRFind, hr, Option.map_some', if_pos (And.intro h1 h2)]
      exact congrArg String.mk (slice_eq_dropWhile t.data s i hf hr)

/-- C5 (amended): the preprocessing that runs before the sanitizer scan
equals fence stripping followed by the trimming rule of the spec restricted to
square brackets: the substring from the first open square bracket to the
last close square bracket when both occur, the text unchanged otherwise;
curly braces play no role. -/
theorem preprocess_eq_specTrim (t : String) :
    preprocess t = specTrim (stripFences t) :=
  trimBrackets_eq_specTrim (stripFences t)

/-- C5 counterexample: a response whose JSON payload is an object wrapped
in prose is not trimmed to that object — writer.py line 122 looks only
for square brackets, so the text comes back unchanged, while the claim
requires the braces-delimited object alone. -/
theorem preprocess_object_counterexample :
    preprocess "Result: \x7b\"a\": 1\x7d done" = "Result: \x7b\"a\": 1\x7d done" ∧
      "Result: \x7b\"a\": 1\x7d done" ≠ "\x7b\"a\": 1\x7d" := by
  constructor
  · decide
  · decide

/-- Outcome of the verification child process started at writer.py
line 254: normal exit with an exit code and captured streams, the
60-second timeout (`subprocess.TimeoutExpired`), or any other exception
raised by the invocation. -/
inductive RunResult where
  | exited (code : Int) (stdout stderr : String)
  | timedOut
  | raised (msg : String)
deriving DecidableEq

/-- How the whole-file overwrite at writer.py lines 239-241 can fail:
the open itself raises, leaving the file as it was, or the write raises
after the open has already truncated the file, leaving only the first
`written` characters of the new content in place. -/
inductive WriteFailure where
  | openFailed (msg : String)
  | writeFailed (msg : String) (written : Nat)
deriving DecidableEq

/-- Fault-injection environment for one `apply_fix_and_verify` call: how
each fallible step behaves. The overwrite opens the target with mode "w",
which truncates it before the new content is written, so a failure there
can leave the file untouched or truncated/partial — and writer.py
attempts no restore on that path (lines 244-247). -/
structure Env where
  readFails : Option String
  writeFails : Option WriteFailure
  runResult : RunResult
  restoreFails : Option String
deriving DecidableEq

/-- Observable result of one `apply_fix_and_verify` call: the returned
pair plus the file content afterward and bookkeeping of the side effects
(number of attempted writes, whether the test command ran, whether a
restore write was attempted and whether it failed). -/
structure ApplyResult where
  succeeded : Bool
  errorDetail : Option String
  file : Option String
  writes : Nat
  ranTests : Bool
  restoreAttempted : Bool
  restoreFailed : Bool
deriving DecidableEq

/-- The procedure `apply_fix_and_verify` (writer.py lines 203-329): existence check,
backup read, whole-file overwrite, run of the test command, and the
decision with best-effort restore. `file` is the content of the target file
(`none` when the file does not exist). Each branch mirrors one return
site of the Python function; on the timeout and unexpected-exception
paths a failed restore is only logged and the original error message is
returned (lines 303-329). -/
def apply_fix_and_verify (filePath : String) (env : Env)
    (file : Option String) (newCode : String) : ApplyResult :=
  match file with
  | none =>
    ⟨false, some ("File does not exist: " ++ filePath), none, 0, false, false, false⟩
  | some original =>
    match env.readFails with
    | some e =>
      ⟨false, some ("Failed to backup file: " ++ e), some original, 0, false, false, false⟩
    | none =>
      match env.writeFails with
      | some (.openFailed e) =>
        ⟨false, some ("Failed to write new code: " ++ e), some original, 1, false, false, false⟩
      | some (.writeFailed e n) =>
        ⟨false, some ("Failed to write new code: " ++ e), some (newCode.take n),
         1, false, false, false⟩
      | none =>
        match env.runResult with
        | .exited code _stdout stderr =>
          if code = 0 then
            ⟨true, none, some newCode, 1, true, false, false⟩
          else
            match env.restoreFails with
            | some e =>
              ⟨false, some ("Failed to revert file after test failure: " ++ e),
               some newCode, 2, true, true, true⟩
            | none =>
              ⟨false, some stderr, some original, 2, true, true, false⟩
        | .timedOut =>
          match env.restoreFails with
          | some _ =>
            ⟨false, some "Tests timed out after 60 seconds", some newCode, 2, true, true, true⟩
          | none =>
            ⟨false, some "Tests timed out after 60 seconds", some original, 2, true, true, false⟩
        | .raised msg =>
          match env.restoreFails with
          | some _ =>
            ⟨false, some ("Unexpected error during test execution: " ++ msg),
             some newCode, 2, true, true, true⟩
          | none =>
            ⟨false, some ("Unexpected error during test execution: " ++ msg),
             some original, 2, true, true, false⟩

/-- The error message writer.py produces when the restore write itself
fails (line 296); an `errorDetail` "describes a failed restore" exactly
when it is such a message. -/
def isRestoreFailureMsg (s : String) : Bool :=
  "Failed to revert file after test failure: ".data.isPrefixOf s.data

/-- C1 counterexample: with the test run timing out and the restore write
failing, `apply_fix_and_verify` returns failure with the timeout message
— which does not describe a failed restore — yet the file afterward holds
`newCode`, not its original content (writer.py lines 303-315 only log the
failed revert and still return the timeout message). -/
theorem rollback_counterexample :
    (apply_fix_and_verify "a.py" ⟨none, none, .timedOut, some "disk full"⟩
        (some "orig") "new").succeeded = false ∧
    (apply_fix_and_verify "a.py" ⟨none, none, .timedOut, some "disk full"⟩
        (some "orig") "new").errorDetail = some "Tests timed out after 60 seconds" ∧
    isRestoreFailureMsg "Tests timed out after 60 seconds" = false ∧
    (apply_fix_and_verify "a.py" ⟨none, none, .timedOut, some "disk full"⟩
        (some "orig") "new").file ≠ some "orig" :=
  ⟨rfl, rfl, by decide, by decide⟩

/-- C1 (amended): whenever `apply_fix_and_verify` returns failure, the
overwrite step itself did not fail, and no attempted restore write
failed, the file afterward holds exactly the content it had before the
call. Both excluded paths can really lose the original: a failed write
may leave the file truncated or partial with no restore attempted
(writer.py lines 239-247), and a failed restore — reflected in
`errorDetail` only on the nonzero-exit path — leaves the file holding
`newCode`. -/
theorem rollback_invariant (filePath : String) (env : Env)
    (file : Option String) (newCode : String)
    (hw : env.writeFails = none)
    (hfail : (apply_fix_and_verify filePath env file newCode).succeeded = false)
    (hres : (apply_fix_and_verify filePath env file newCode).restoreFailed = false) :
    (apply_fix_and_verify filePath env file newCode).file = file := by
  obtain ⟨rf, wf, rr, sf⟩ := env
  simp only at hw
  subst hw
  cases file with
  | none => rfl
  | some original =>
    cases rf with
    | some e => rfl
    | none =>
      cases rr with
      | exited code out err =>
        by_cases hc : code = 0
        · simp [apply_fix_and_verify, hc] at hfail
        · cases sf with
          | some e => simp [apply_fix_and_verify, hc] at hres
          | none => simp [apply_fix_and_verify, hc]
      | timedOut =>
        cases sf with
        | some e => simp [apply_fix_and_verify] at hres
        | none => rfl
      | raised msg =>
        cases sf with
        | some e => simp [apply_fix_and_verify] at hres
        | none => rfl

/-- Witness for C1 (amended): a nonzero test exit with a working restore
leaves the original content in place. -/
theorem rollback_invariant_witness :
    (apply_fix_and_verify "a.py" ⟨none, none, .exited 1 "" "boom", none⟩
        (some "orig") "new").file = some "orig" :=
  rollback_invariant "a.py" ⟨none, none, .exited 1 "" "boom", none⟩
    (some "orig") "new" rfl (by decide) (by decide)

/-- C2: whenever `apply_fix_and_verify` returns success, the file
afterward holds exactly `newCode`: success is returned only at the
zero-exit-code site, after the whole-file overwrite and with no later
write (writer.py lines 276-278). -/
theorem commit_invariant (filePath : String) (env : Env)
    (file : Option String) (newCode : String)
    (h : (apply_fix_and_verify filePath env file newCode).succeeded = true) :
    (apply_fix_and_verify filePath env file newCode).file = some newCode := by
  obtain ⟨rf, wf, rr, sf⟩ := env
  cases file with
  | none => simp [apply_fix_and_verify] at h
  | some original =>
    cases rf with
    | some e => simp [apply_fix_and_verify] at h
    | none =>
      cases wf with
      | some e => cases e <;> simp [apply_fix_and_verify] at h
      | none =>
        cases rr with
        | exited code out err =>
          by_cases hc : code = 0
          · simp [apply_fix_and_verify, hc]
          · cases sf <;> simp [apply_fix_and_verify, hc] at h
        | timedOut => cases sf <;> simp [apply_fix_and_verify] at h
        | raised msg => cases sf <;> simp [apply_fix_and_verify] at h

/-- Witness for C2 at a concrete zero-exit verification run. -/
theorem commit_invariant_witness :
    (apply_fix_and_verify "a.py" ⟨none, none, .exited 0 "ok" "", none⟩
        (some "orig") "new").file = some "new" :=
  commit_invariant "a.py" ⟨none, none, .exited 0 "ok" "", none⟩
    (some "orig") "new" (by decide)

/-- C3 counterexample: when the test invocation raises unexpectedly and
the restore write then fails, the restore failure is only logged — the
returned `errorDetail` is the original exception message, not a restore
failure description, so the caller cannot distinguish the two cases
(writer.py lines 317-329). -/
theorem restore_report_counterexample :
    (apply_fix_and_verify "b.py" ⟨none, none, .raised "boom", some "denied"⟩
        (some "orig") "new").restoreFailed = true ∧
    (apply_fix_and_verify "b.py" ⟨none, none, .raised "boom", some "denied"⟩
        (some "orig") "new").errorDetail
      = some "Unexpected error during test execution: boom" ∧
    isRestoreFailureMsg "Unexpected error during test execution: boom" = false :=
  ⟨rfl, rfl, by decide⟩

/-- C3 (amended): every verification path — nonzero exit, timeout, other
exception — attempts a restore of the backup; a failed restore replaces
`errorDetail` only on the nonzero-exit path, while the timeout and
exception paths return their own marker whether or not the restore
succeeded. -/
theorem restore_semantics (filePath : String) (env : Env)
    (original newCode : String)
    (hr : env.readFails = none) (hw : env.writeFails = none) :
    (env.runResult = .timedOut →
       (apply_fix_and_verify filePath env (some original) newCode).restoreAttempted = true ∧
       (apply_fix_and_verify filePath env (some original) newCode).errorDetail
         = some "Tests timed out after 60 seconds")
    ∧ (∀ msg, env.runResult = .raised msg →
       (apply_fix_and_verify filePath env (some original) newCode).restoreAttempted = true ∧
       (apply_fix_and_verify filePath env (some original) newCode).errorDetail
         = some ("Unexpected error during test execution: " ++ msg))
    ∧ (∀ code out err, env.runResult = .exited code out err → code ≠ 0 →
       (apply_fix_and_verify filePath env (some original) newCode).restoreAttempted = true ∧
       (∀ e, env.restoreFails = some e →
          (apply_fix_and_verify filePath env (some original) newCode).errorDetail
            = some ("Failed to revert file after test failure: " ++ e)) ∧
       (env.restoreFails = none →
          (apply_fix_and_verify filePath env (some original) newCode).errorDetail
            = some err)) := by
  obtain ⟨rf, wf, rr, sf⟩ := env
  simp only at hr hw
  subst hr
  subst hw
  refine ⟨?_, ?_, ?_⟩
  · intro ht
    simp only at ht
    subst ht
    cases sf <;> exact ⟨rfl, rfl⟩
  · intro msg hm
    simp only at hm
    subst hm
    cases sf <;> exact ⟨rfl, rfl⟩
  · intro code out err he hc
    simp only at he
    subst he
    cases sf with
    | none =>
      refine ⟨?_, ?_, ?_⟩
      · simp [apply_fix_and_verify, hc]
      · intro e he2
        simp at he2
      · intro _
        simp [apply_fix_and_verify, hc]
    | some e =>
      refine ⟨?_, ?_, ?_⟩
      · simp [apply_fix_and_verify, hc]
      · intro e2 he2
        simp only [Option.some.injEq] at he2
        subst he2
        simp [apply_fix_and_verify, hc]
      · intro h2
        simp at h2

/-- Witness for C3 (amended) at a concrete nonzero-exit run with a
working restore: the restore is attempted and the captured stderr is
returned. -/
theorem restore_semantics_witness :
    (apply_fix_and_verify "c.py" ⟨none, none, .exited 2 "" "FAILED", none⟩
        (some "orig") "new").restoreAttempted = true ∧
    (apply_fix_and_verify "c.py" ⟨none, none, .exited 2 "" "FAILED", none⟩
        (some "orig") "new").errorDetail = some "FAILED" := by
  obtain ⟨-, -, h3⟩ := restore_semantics "c.py" ⟨none, none, .exited 2 "" "FAILED", none⟩
    "orig" "new" rfl rfl
  obtain ⟨h4, -, h5⟩ := h3 2 "" "FAILED" rfl (by decide)
  exact ⟨h4, h5 rfl⟩

/-- C8: `apply_fix_and_verify` returns success exactly when the error
detail is absent: every success carries `none` and every failure carries
some message. -/
theorem success_iff_no_error (filePath : String) (env : Env)
    (file : Option String) (newCode : String) :
    (apply_fix_and_verify filePath env file newCode).succeeded = true
      ↔ (apply_fix_and_verify filePath env file newCode).errorDetail = none := by
  obtain ⟨rf, wf, rr, sf⟩ := env
  rcases file with _ | original <;> rcases rf with _ | e1 <;>
    rcases wf with _ | (e2 | ⟨e2, n2⟩) <;>
    rcases rr with ⟨code, out, err⟩ | _ | msg <;> rcases sf with _ | e3 <;>
    first
      | (by_cases hc : code = 0 <;> simp [apply_fix_and_verify, hc])
      | simp [apply_fix_and_verify]

theorem isPrefixOf_append_right (a : List Char) : ∀ b c : List Char,
    a.isPrefixOf b = true → a.isPrefixOf (b ++ c) = true := by
  induction a with
  | nil => intro b c _; simp [List.isPrefixOf]
  | cons x xs ih =>
    intro b c h
    cases b with
    | nil => simp [List.isPrefixOf] at h
    | cons y ys =>
      simp only [List.isPrefixOf, List.cons_append, Bool.and_eq_true] at h ⊢
      exact ⟨h.1, ih ys c h.2⟩

theorem hasSubstr_nil_needle (t : List Char) : hasSubstr [] t = true := by
  induction t with
  | nil => rfl
  | cons c cs ih => simp [hasSubstr, List.isPrefixOf]

theorem hasSubstr_append_right (needle : List Char) : ∀ h t : List Char,
    hasSubstr needle h = true → hasSubstr needle (h ++ t) = true := by
  intro h t
  induction h with
  | nil =>
    intro hh
    simp only [hasSubstr, List.isEmpty_eq_true] at hh
    subst hh
    simp [hasSubstr_nil_needle]
  | cons c cs ih =>
    intro hh
    simp only [hasSubstr, Bool.or_eq_true, List.cons_append] at hh ⊢
    rcases hh with hp | hs
    · exact Or.inl (isPrefixOf_append_right _ _ _ hp)
    · exact Or.inr (ih hs)

/-- C9: when the target file does not exist, `apply_fix_and_verify`
returns failure with a message containing "does not exist", performs no
write and never invokes the verification command (writer.py lines
220-223). -/
theorem nonexistent_file (filePath : String) (env : Env) (newCode : String) :
    (apply_fix_and_verify filePath env none newCode).succeeded = false ∧
    (apply_fix_and_verify filePath env none newCode).errorDetail
      = some ("File does not exist: " ++ filePath) ∧
    hasSubstr "does not exist".data ("File does not exist: " ++ filePath).data = true ∧
    (apply_fix_and_verify filePath env none newCode).writes = 0 ∧
    (apply_fix_and_verify filePath env none newCode).ranTests = false := by
  refine ⟨rfl, rfl, ?_, rfl, rfl⟩
  rw [String.data_append]
  exact hasSubstr_append_right _ _ _ (by decide)
